import Mathlib

/-!
Shallow embedding of the log ingestion, aggregation and search pipeline of
`src/app.py` (Flask + pandas).  Text is modelled as `List Char` (Python str),
a pandas `NaN` cell as `Option`, and a numeric cell as the exact decimal it
was parsed from (`Dec`: mantissa and scale) — the floats of the source hold
such decimal values exactly in every behaviour the claims mention.  Each
definition carries a comment naming the source lines it embeds.
-/

namespace LogIntel

/-! ### Python / pandas primitives -/

/-- Exact decimal number `mant / 10 ^ scale`. -/
structure Dec where
  mant : Int
  scale : Nat
deriving DecidableEq, Repr

/-- The value of a decimal as a rational. -/
def Dec.toRat (d : Dec) : ℚ := (d.mant : ℚ) / (10 : ℚ) ^ d.scale

/-- `⌊value⌋` — floor, as used for epoch-second extraction. -/
def Dec.floorInt (d : Dec) : Int := d.mant.fdiv (10 ^ d.scale)

/-- `int(value)` / `astype(int)` — C truncation toward zero. -/
def Dec.truncInt (d : Dec) : Int := d.mant.tdiv (10 ^ d.scale)

/-- The default `na_values` sentinel strings of `pd.read_csv`: a raw field
equal to one of these (in particular the empty field) is stored as `NaN`. -/
def naValues : List String :=
  ["", "#N/A", "#N/A N/A", "#NA", "-1.#IND", "-1.#QNAN", "-NaN", "-nan", "1.#IND", "1.#QNAN", "<NA>", "N/A", "NA", "NULL", "NaN", "None", "n/a", "nan", "null"]

/-- A raw text field as stored by `pd.read_csv`: `none` iff the text is one of
the NA sentinels (an absent field is `none` directly). -/
def toNA (cs : List Char) : Option (List Char) :=
  if naValues.any (fun s => decide (s.data = cs)) then none else some cs

/-- Numeric value of a digit list (most significant first). -/
def digitsToNat (l : List Char) : Nat := l.foldl (fun a c => 10 * a + (c.toNat - 48)) 0

/-- Unsigned decimal literal: `123`, `1.5`, `.5`, `7.`; anything else is no
number. -/
def pyFloatCore (cs : List Char) : Option Dec :=
  let intPart := cs.takeWhile Char.isDigit
  let rest := cs.dropWhile Char.isDigit
  match rest with
  | [] => if intPart.isEmpty then none else some ⟨(digitsToNat intPart : Int), 0⟩
  | '.' :: frac =>
    if frac.all Char.isDigit && !(intPart.isEmpty && frac.isEmpty) then
      some ⟨(digitsToNat intPart * 10 ^ frac.length + digitsToNat frac : Int), frac.length⟩
    else none
  | _ => none

/-- Model of the numeric parse used by `pd.to_numeric(..., errors='coerce')`
and by `pd.to_datetime(..., unit='s', errors='coerce')` on a text cell: an
optional sign followed by a decimal literal; anything else coerces to `NaN`
(`none`).  Exponent forms and `inf`/`nan` literals are outside the modelled
fragment. -/
def pyFloat (cs : List Char) : Option Dec :=
  match cs with
  | '-' :: rest => (pyFloatCore rest).map (fun d => ⟨-d.mant, d.scale⟩)
  | '+' :: rest => pyFloatCore rest
  | _ => pyFloatCore cs

/-- `str(cell)` on an `object` cell as used by `.astype(str)`: the text
itself, and the float `NaN` prints as `"nan"`. -/
def pyStr : Option (List Char) → List Char
  | none => "nan".data
  | some cs => cs

/-- Split a character list at every character satisfying `p`, keeping empty
pieces (like Python `str.split(sep)` for a one-character separator). -/
def splitOnPred (p : Char → Bool) : List Char → List (List Char)
  | [] => [[]]
  | c :: cs =>
    match splitOnPred p cs with
    | [] => if p c then [[], []] else [[c]]
    | f :: r => if p c then [] :: f :: r else (c :: f) :: r

/-- Python `str.split()` with no argument: split on whitespace, dropping
empty pieces. -/
def pySplit (cs : List Char) : List (List Char) :=
  (splitOnPred Char.isWhitespace cs).filter (fun p => !p.isEmpty)

/-- Python `str.strip()`: drop leading and trailing whitespace. -/
def pyStrip (cs : List Char) : List Char :=
  ((cs.dropWhile Char.isWhitespace).reverse.dropWhile Char.isWhitespace).reverse

/-! ### Record Parser — `upload`, `src/app.py` lines 51-62

`pd.read_csv(path, sep='\t', header=None, names=[7 names],
on_bad_lines='skip', encoding='latin1')`:
the C parser fixes the expected column count `E` from the first non-blank
data line, at least the 7 supplied names; when the first line has more fields
than names, the extra leading columns become the (unnamed) index and the last
7 columns carry the names.  A raw line with MORE than `E` fields is a "bad
line" and is skipped; a line with `E` or fewer fields is accepted, the
missing trailing fields stored as `NaN`; blank lines are skipped
(`skip_blank_lines` default).  Field counting honors the default
`quotechar='"'`: a field opened by a quote may contain literal tabs and
doubled quotes (a quoted field spanning a line break is outside this
line-list model).  `latin1` decoding never fails, so the input is modelled as
the decoded list of lines. -/

/-- Tokenizer state of the C parser's field scanner: at the start of a
field, inside an unquoted field, inside a quoted field, or just after a
quote inside a quoted field. -/
inductive QSt where
  | atStart : QSt
  | plain : QSt
  | quoted : QSt
  | closing : QSt
deriving DecidableEq, Repr

/-- One line through the C parser's field scanner (`sep='\t'`, default
`quotechar='"'`, `doublequote=True`, non-strict): a quote opening a field
starts a quoted region in which tabs are literal and `""` is a literal
quote; characters after the closing quote are appended to the field. -/
def csvSplit (st : QSt) (acc : List Char) : List Char → List (List Char)
  | [] => [acc.reverse]
  | c :: cs =>
    match st with
    | QSt.atStart =>
      if c = '\t' then acc.reverse :: csvSplit QSt.atStart [] cs
      else if c = '"' then csvSplit QSt.quoted acc cs
      else csvSplit QSt.plain (c :: acc) cs
    | QSt.plain =>
      if c = '\t' then acc.reverse :: csvSplit QSt.atStart [] cs
      else csvSplit QSt.plain (c :: acc) cs
    | QSt.quoted =>
      if c = '"' then csvSplit QSt.closing acc cs
      else csvSplit QSt.quoted (c :: acc) cs
    | QSt.closing =>
      if c = '"' then csvSplit QSt.quoted ('"' :: acc) cs
      else if c = '\t' then acc.reverse :: csvSplit QSt.atStart [] cs
      else csvSplit QSt.plain (c :: acc) cs

/-- The tab-separated fields of one raw line, under the default quoting. -/
def tabFields (line : String) : List (List Char) := csvSplit QSt.atStart [] line.data

/-- The expected column count of the frame: the field count of the first
non-blank data line, at least the 7 supplied names. -/
def expectedCols (lines : List String) : Nat :=
  match lines.find? (fun l => !l.data.isEmpty) with
  | none => 7
  | some l => max 7 (tabFields l).length

/-- One accepted raw row: the seven named columns of line 51, each `NaN`
(`none`) when absent or an NA sentinel. -/
structure RawRow where
  host : Option (List Char)
  dash : Option (List Char)
  time_epoch : Option (List Char)
  method : Option (List Char)
  url : Option (List Char)
  status : Option (List Char)
  bytes : Option (List Char)
deriving DecidableEq, Repr

/-- Field `i` of a split line: absent fields and NA sentinels give `NaN`. -/
def fieldAt (fs : List (List Char)) (i : Nat) : Option (List Char) := (fs[i]?).bind toNA

/-- Parse one raw line given the expected column count `e`: `none` when the
line is blank (skipped) or has more than `e` fields (bad line, skipped);
otherwise the named columns are the last 7 of the `e` columns (the leading
`e - 7` fields are index values), missing trailing fields `NaN`. -/
def parseLineE (e : Nat) (line : String) : Option RawRow :=
  if line.data.isEmpty then none
  else
    let fs := tabFields line
    if e < fs.length then none
    else some { host := fieldAt fs (e - 7), dash := fieldAt fs (e - 7 + 1),
                time_epoch := fieldAt fs (e - 7 + 2), method := fieldAt fs (e - 7 + 3),
                url := fieldAt fs (e - 7 + 4), status := fieldAt fs (e - 7 + 5),
                bytes := fieldAt fs (e - 7 + 6) }

/-- The accepted rows of the input, in file order. -/
def parsedRows (lines : List String) : List RawRow :=
  lines.filterMap (parseLineE (expectedCols lines))

/-- One normalized record of the Log Table, with the six columns kept by
line 82: `df = df[['host', 'time', 'request', 'status', 'bytes', 'dt']]`.
`dt` is the `pd.to_datetime(..., unit='s')` value as epoch seconds (`none`
for `NaT`), `time` its `'%d/%b/%Y:%H:%M:%S'` rendering (`strftime` of `NaT`
is `NaN`). -/
structure LogRecord where
  host : Option (List Char)
  time : Option (List Char)
  request : List Char
  status : Int
  bytes : Dec
  dt : Option Dec
deriving DecidableEq, Repr

/-- Three-letter month abbreviation of `strftime('%b')` (C locale). -/
def monthAbbrev : Nat → List Char
  | 1 => "Jan".data | 2 => "Feb".data | 3 => "Mar".data | 4 => "Apr".data
  | 5 => "May".data | 6 => "Jun".data | 7 => "Jul".data | 8 => "Aug".data
  | 9 => "Sep".data | 10 => "Oct".data | 11 => "Nov".data | 12 => "Dec".data
  | _ => []

/-- Decimal digits of `n` (most significant first), empty when `n = 0`;
the first argument is recursion fuel, always taken `≥` the digit count. -/
def natDigitsAux : Nat → Nat → List Char
  | 0, _ => []
  | fuel + 1, n => if n = 0 then [] else natDigitsAux fuel (n / 10) ++ [Char.ofNat (48 + n % 10)]

/-- Decimal rendering of a natural number. -/
def natToChars (n : Nat) : List Char := if n = 0 then ['0'] else natDigitsAux (n + 1) n

/-- Two-digit zero padding (`%d`, `%H`, `%M`, `%S`). -/
def pad2 (n : Nat) : List Char := if n < 10 then '0' :: natToChars n else natToChars n

/-- Four-digit zero padding of the year (`%Y`). -/
def pad4 (y : Int) : List Char :=
  if y < 0 then '-' :: natToChars (-y).toNat
  else
    let s := natToChars y.toNat
    List.replicate (4 - s.length) '0' ++ s

/-- Proleptic-Gregorian civil date of a day count from 1970-01-01 (the
days-to-civil algorithm used by datetime libraries): `(year, month, day)`. -/
def civilFromDays (z0 : Int) : Int × Nat × Nat :=
  let z := z0 + 719468
  let era := z.fdiv 146097
  let doe := (z - era * 146097).toNat
  let yoe := (doe - doe / 1460 + doe / 36524 - doe / 146096) / 365
  let y0 := (yoe : Int) + era * 400
  let doy := doe - (365 * yoe + yoe / 4 - yoe / 100)
  let mp := (5 * doy + 2) / 153
  let d := doy - (153 * mp + 2) / 5 + 1
  let m := if mp < 10 then mp + 3 else mp - 9
  (if m ≤ 2 then y0 + 1 else y0, m, d)

/-- `strftime('%d/%b/%Y:%H:%M:%S')` of the UTC instant `t` seconds after the
epoch (`src/app.py` line 75); pandas datetimes are timezone-naive UTC, so no
timezone enters the rendering. -/
def strftimeDBY (t : Int) : List Char :=
  let days := t.fdiv 86400
  let sod := (t - days * 86400).toNat
  let c := civilFromDays days
  pad2 c.2.2 ++ ['/'] ++ monthAbbrev c.2.1 ++ ['/'] ++ pad4 c.1 ++ [':'] ++
    pad2 (sod / 3600) ++ [':'] ++ pad2 (sod % 3600 / 60) ++ [':'] ++ pad2 (sod % 60)

/-- `pd.to_datetime(cell, unit='s', errors='coerce')` (`src/app.py` line 72):
the cell's numeric value as seconds since the Unix epoch, `NaT` on parse
failure.  The conversion is purely arithmetic on the epoch value; the host
timezone configuration `hostTz` is never consulted (pandas datetimes are
timezone-naive UTC), which the unused parameter makes explicit. -/
def toDatetimeS (hostTz : Int) (cell : Option (List Char)) : Option Dec :=
  cell.bind pyFloat

/-- The Field Deriver (`src/app.py` lines 66-82) on one accepted row, with the
host timezone configuration as an explicit (unused) environment parameter:
`request = method.astype(str) + " " + url.astype(str)` (line 68);
`dt = to_datetime(time_epoch, unit='s', errors='coerce')` (line 72);
`time = dt.strftime('%d/%b/%Y:%H:%M:%S')` (line 75, display second = floor of
the epoch value, `NaN` for `NaT`);
`status = to_numeric(status, errors='coerce').fillna(0).astype(int)`
(line 78); `bytes = to_numeric(bytes, errors='coerce').fillna(0)` (line 79). -/
def deriveRecordTz (hostTz : Int) (r : RawRow) : LogRecord :=
  let dt := toDatetimeS hostTz r.time_epoch
  { host := r.host
    time := dt.map (fun d => strftimeDBY d.floorInt)
    request := pyStr r.method ++ [' '] ++ pyStr r.url
    status := match r.status.bind pyFloat with
              | none => 0
              | some d => d.truncInt
    bytes := (r.bytes.bind pyFloat).getD ⟨0, 0⟩
    dt := dt }

/-- The Log Table built by `upload` from the decoded input lines, on a host
with timezone configuration `hostTz`. -/
def recordsTz (hostTz : Int) (lines : List String) : List LogRecord :=
  (parsedRows lines).map (deriveRecordTz hostTz)

/-- The Log Table built by `upload` from the decoded input lines. -/
def records (lines : List String) : List LogRecord := recordsTz 0 lines

/-! ### The global table through `upload` — `src/app.py` lines 54-84

`upload` rebinds the module-global `df` to the raw parsed frame at line 54 and
then installs the derived columns by assignments to that global (lines 68-82).
Each statement boundary is a state of the global that a concurrent reader (or
the handler itself, after a mid-transformation exception) can observe. -/

/-- Observable value of the module-global `df`: never loaded, mid-
transformation after `k` of the 5 derivation statements (lines 68, 72, 75,
78-79, 82), or a fully derived table. -/
inductive DfState where
  | noTable : DfState
  | transforming (rows : List RawRow) (stage : Nat) : DfState
  | table (t : List LogRecord) : DfState
deriving DecidableEq

/-- The successive values taken by the global `df` during one `upload` call
that starts from `prev`: the raw frame is published first (line 54), then the
five in-place transformation stages, then the final projected table. -/
def uploadTrace (prev : DfState) (lines : List String) : List DfState :=
  [prev,
   DfState.transforming (parsedRows lines) 0,
   DfState.transforming (parsedRows lines) 1,
   DfState.transforming (parsedRows lines) 2,
   DfState.transforming (parsedRows lines) 3,
   DfState.transforming (parsedRows lines) 4,
   DfState.table (records lines)]

/-! ### Aggregator — `stats`, `src/app.py` lines 93-136 -/

/-- `List.countP` through decidable equality (pandas counts by exact value). -/
def countEq {α : Type} [DecidableEq α] (l : List α) (k : α) : Nat :=
  l.countP (fun x => decide (x = k))

/-- First-occurrence deduplication: the distinct values of the input in order
of first appearance, skipping those already in `seen` (the key order of the
pandas `value_counts` hash table). -/
def dedupFO {α : Type} [DecidableEq α] (seen : List α) : List α → List α
  | [] => []
  | x :: xs => if x ∈ seen then dedupFO seen xs else x :: dedupFO (x :: seen) xs

/-- Insertion into a count-descending list: the new entry goes after every
entry of strictly greater count and before every other. -/
def insertDesc {α : Type} (x : α × Nat) : List (α × Nat) → List (α × Nat)
  | [] => [x]
  | y :: ys => if x.2 < y.2 then y :: insertDesc x ys else x :: y :: ys

/-- Deterministic stand-in for the sort inside `value_counts`
(`Series.sort_values(ascending=False)`, whose default numpy quicksort is
UNSTABLE above its ~16-element insertion-sort threshold): it agrees with the
program on the multiset of entries and on counts being non-increasing, which
is all the theorems below use — the tie order among equal counts is NOT a
property of the program (see the C5 finding). -/
def sortCountDesc {α : Type} : List (α × Nat) → List (α × Nat)
  | [] => []
  | x :: xs => insertDesc x (sortCountDesc xs)

/-- `Series.value_counts()`: count each distinct value (`NaN` entries are
already removed by the callers' `filterMap`), then sort by count descending;
only permutation-invariant consequences (the entry multiset, count bounds)
are claimed of the program, since its tie order is unspecified. -/
def value_counts {α : Type} [DecidableEq α] (l : List α) : List (α × Nat) :=
  sortCountDesc ((dedupFO [] l).map (fun k => (k, countEq l k)))

/-- `total = len(df)` (line 102). -/
def total (t : List LogRecord) : Nat := t.length

/-- `unique_ips = df['host'].nunique()` (line 103): distinct non-null hosts. -/
def unique_ips (t : List LogRecord) : Nat :=
  (dedupFO [] (t.filterMap (fun r => r.host))).length

/-- `df[(df['status'] >= 400) & (df['status'] < 600)].shape[0]` (line 106). -/
def error_count (t : List LogRecord) : Nat :=
  t.countP (fun r => decide (400 ≤ r.status ∧ r.status < 600))

/-- Python 3 `round` ties-to-even (banker's rounding) on an exact value. -/
def roundHalfEven (x : ℚ) : Int :=
  if x - ⌊x⌋ < 1 / 2 then ⌊x⌋
  else if 1 / 2 < x - ⌊x⌋ then ⌊x⌋ + 1
  else if Even ⌊x⌋ then ⌊x⌋ else ⌊x⌋ + 1

/-- `round(x, 2)`: round to 2 decimal places, ties to even. -/
def pyRound2 (x : ℚ) : ℚ := (roundHalfEven (x * 100) : ℚ) / 100

/-- `round(100.0 * error_count / total, 2) if total else 0.0` (line 107); the
float division and rounding are modelled exactly over `ℚ`.  `stats` returns
`0.0` without computing when the table is empty (line 96). -/
def error_rate_pct (t : List LogRecord) : ℚ :=
  if t.length = 0 then 0
  else pyRound2 (100 * (error_count t : ℚ) / (t.length : ℚ))

/-- `df['host'].value_counts().head(5)` (lines 110-111); `value_counts`
drops `NaN` hosts. -/
def top_5_ips (t : List LogRecord) : List (List Char × Nat) :=
  (value_counts (t.filterMap (fun r => r.host))).take 5

/-- `.str.split().str[1]` on one request: the second whitespace-delimited
token, `NaN` when there is none. -/
def secondToken (s : List Char) : Option (List Char) := (pySplit s)[1]?

/-- The endpoint ranking keys (line 115): second token of each request;
records without one yield `NaN`, which `value_counts` then drops — modelled
by the `filterMap`.  (`str.split().str[1]` never raises, so the bare
`except` fallback of line 117 is dead code.) -/
def endpointKeys (t : List LogRecord) : List (List Char) :=
  t.filterMap (fun r => secondToken r.request)

/-- `df['request'].str.split().str[1].value_counts().head(5)` (line 115). -/
def top_5_endpoints (t : List LogRecord) : List (List Char × Nat) :=
  (value_counts (endpointKeys t)).take 5

/-- Clock hour containing the instant `d` (epoch seconds): the hourly
resample bin of `d` starts at hour `⌊d / 3600⌋`. -/
def hourOf (d : Dec) : Int := d.mant.fdiv (3600 * 10 ^ d.scale)

/-- The bin hours of the records with valid `dt`, in table order. -/
def validHours (t : List LogRecord) : List Int :=
  (t.filterMap (fun r => r.dt)).map hourOf

/-- Hourly bins from the earliest to the latest hour present, each with its
count; rows with `NaT` index are excluded by `resample` (and an all-`NaT`
index makes `resample` raise, which line 127 turns into `[]`). -/
def bucketize (l : List Int) : List (Int × Nat) :=
  match l with
  | [] => []
  | h :: hs =>
    (List.range (hs.foldl max h - hs.foldl min h + 1).toNat).map
      (fun (i : Nat) => (hs.foldl min h + (i : Int),
        countEq (h :: hs) (hs.foldl min h + (i : Int))))

/-- `df.set_index('dt').resample('h').size()` (lines 122-127): hourly bucket
counts over the records with non-null `dt`, chronological, keyed by bucket
start hour. -/
def requests_over_time (t : List LogRecord) : List (Int × Nat) :=
  bucketize (validHours t)

/-! ### Search — `search`, `src/app.py` lines 226-242 -/

/-- The Python `re` metacharacters other than `.` — on a pattern containing
none of these, `re.compile`/`re.search` interpret every character except `.`
literally and `.` as any-character, which is exactly what `compileRe` below
does; patterns that do contain one follow full (possibly failing) `re`
semantics and are outside what the search theorem asserts. -/
def reMetachars : List Char :=
  ['*', '+', '?', '(', ')', '[', ']', '\x7b', '\x7d', '\\', '|', '^', '$']

/-- A compiled pattern token: `.` (any character except newline) or a
literal character. -/
inductive RTok where
  | dot : RTok
  | lit (c : Char) : RTok
deriving DecidableEq

/-- `re.compile(q, re.IGNORECASE)` on a pattern free of the `reMetachars`:
`.` compiles to the any-character token, everything else to a literal. -/
def compileRe (q : List Char) : List RTok :=
  q.map (fun c => if c = '.' then RTok.dot else RTok.lit c)

/-- One token against one character, case-insensitively (`case=False`). -/
def tokMatches : RTok → Char → Bool
  | RTok.dot, c => c != '\n'
  | RTok.lit a, c => a.toLower == c.toLower

/-- Match the whole pattern at the start of the text. -/
def reMatchHere : List RTok → List Char → Bool
  | [], _ => true
  | _ :: _, [] => false
  | p :: ps, c :: cs => tokMatches p c && reMatchHere ps cs

/-- `re.search`: the pattern matches at some position of the text. -/
def reSearch (p : List RTok) : List Char → Bool
  | [] => reMatchHere p []
  | c :: cs => reMatchHere p (c :: cs) || reSearch p cs

/-- `df['request'].str.contains(q, case=False, na=False)` on one request
(line 234): case-insensitive regular-expression search.  Agrees with the
program exactly when `q` avoids the `reMetachars` (the hypothesis of the
search theorem); on other queries the program follows full `re` semantics —
and raises `re.error` on an invalid pattern such as `"("`, there being no
try/except around line 234. -/
def strContainsCI (q s : List Char) : Bool := reSearch (compileRe q) s

/-- Case-insensitive literal-substring containment — the relation the spec
text asserts for search; stated from the spec's words, for comparison with
`strContainsCI` which embeds the code. -/
def litContainsCI (q s : List Char) : Bool :=
  decide (q.map Char.toLower <:+: s.map Char.toLower)

/-- `search` (lines 226-242): strip the query; empty query or table gives no
results; otherwise the first 50 table-order records whose request matches the
query as a case-insensitive regular expression. -/
def searchResults (t : List LogRecord) (q0 : String) : List LogRecord :=
  if (pyStrip q0.data).isEmpty then []
  else (t.filter (fun r => strContainsCI (pyStrip q0.data) r.request)).take 50

/-- The reported `count` (line 242): the size of the returned window. -/
def searchCount (t : List LogRecord) (q0 : String) : Nat := (searchResults t q0).length

/-! ### Helper lemmas -/

theorem mem_insertDesc {α : Type} (x p : α × Nat) (l : List (α × Nat)) :
    p ∈ insertDesc x l ↔ p = x ∨ p ∈ l := by
  induction l with
  | nil => simp [insertDesc]
  | cons y ys ih =>
    unfold insertDesc
    by_cases h : x.2 < y.2 <;> simp [h, ih] <;> tauto

theorem mem_sortCountDesc {α : Type} (p : α × Nat) (l : List (α × Nat)) :
    p ∈ sortCountDesc l ↔ p ∈ l := by
  induction l with
  | nil => simp [sortCountDesc]
  | cons x xs ih => simp [sortCountDesc, mem_insertDesc, ih]

theorem mem_dedupFO {α : Type} [DecidableEq α] (a : α) :
    ∀ (l seen : List α), a ∈ dedupFO seen l → a ∈ l := by
  intro l
  induction l with
  | nil => intro seen h; simp [dedupFO] at h
  | cons x xs ih =>
    intro seen h
    unfold dedupFO at h
    by_cases hx : x ∈ seen
    · rw [if_pos hx] at h
      exact List.mem_cons_of_mem _ (ih _ h)
    · rw [if_neg hx] at h
      rcases List.mem_cons.1 h with h | h
      · exact h ▸ List.mem_cons_self _ _
      · exact List.mem_cons_of_mem _ (ih _ h)

/-- C2, counterexample: on the table built from the single line
`"h\t-\t0\tGET\t/x\t200\t10"` (one record with request `"GET /x"`), the query
`"."` returns 1 result even though `"."` is not a literal substring of
`"GET /x"` — `str.contains` treats the query as a regular expression, so the
results are not exactly the literal-substring matches. -/
theorem search_literal_substring_ce :
    searchCount (records ["h\t-\t0\tGET\t/x\t200\t10"]) "." = 1 ∧
    (records ["h\t-\t0\tGET\t/x\t200\t10"]).map (fun r => r.request) = ["GET /x".data] ∧
    litContainsCI ".".data "GET /x".data = false := by
  refine ⟨by decide, by decide, by decide⟩

/-- C2 (amended): for every table state and every query string whose
stripped form contains no `re` metacharacter other than `.` — the regime in
which the embedded matcher is exactly Python `re` — search returns up to 50
records, in table order: precisely the first 50 table-order records whose
request matches the stripped query as a case-insensitive regular expression,
and exactly the set of matches when at most 50 match; an empty stripped
query or an empty table yields zero results, and the reported count is the
size of the returned window.  (Queries containing other metacharacters
follow full `re` semantics — an invalid pattern such as `"("` makes the
request fail — and are outside this statement.) -/
theorem search_spec (t : List LogRecord) (q : String)
    (hq : ∀ c ∈ pyStrip q.data, c ∉ reMetachars) :
    (searchResults t q).length ≤ 50 ∧
    List.Sublist (searchResults t q) t ∧
    ((pyStrip q.data).isEmpty = true → searchResults t q = []) ∧
    searchResults [] q = [] ∧
    (∀ r ∈ searchResults t q, strContainsCI (pyStrip q.data) r.request = true) ∧
    ((pyStrip q.data).isEmpty = false →
      searchResults t q =
        (t.filter (fun r => strContainsCI (pyStrip q.data) r.request)).take 50) ∧
    ((pyStrip q.data).isEmpty = false →
      (t.filter (fun r => strContainsCI (pyStrip q.data) r.request)).length ≤ 50 →
      searchResults t q = t.filter (fun r => strContainsCI (pyStrip q.data) r.request)) ∧
    searchCount t q = (searchResults t q).length := by
  by_cases h : (pyStrip q.data).isEmpty
  · simp [searchResults, searchCount, h]
  · have e : searchResults t q =
        (t.filter (fun r => strContainsCI (pyStrip q.data) r.request)).take 50 := by
      simp [searchResults, h]
    refine ⟨?_, ?_, ?_, ?_, ?_, fun _ => e, ?_, rfl⟩
    · rw [e]; exact List.length_take_le _ _
    · rw [e]; exact (List.take_sublist _ _).trans (List.filter_sublist _)
    · intro hq0; exact absurd hq0 h
    · simp [searchResults]
    · intro r hr; rw [e] at hr
      have hr2 : r ∈ t.filter (fun r => strContainsCI (pyStrip q.data) r.request) :=
        (List.take_sublist _ _).subset hr
      exact (List.mem_filter.1 hr2).2
    · intro _ hle
      rw [e]
      exact List.take_of_length_le hle

/-- C2 witness: the one-record table for `"h\t-\t0\tGET\t/x\t200\t10"` and
the metacharacter-free query `"/x"`. -/
theorem search_spec_witness :
    (searchResults (records ["h\t-\t0\tGET\t/x\t200\t10"]) "/x").length ≤ 50 ∧
    List.Sublist (searchResults (records ["h\t-\t0\tGET\t/x\t200\t10"]) "/x")
      (records ["h\t-\t0\tGET\t/x\t200\t10"]) ∧
    ((pyStrip "/x".data).isEmpty = true →
      searchResults (records ["h\t-\t0\tGET\t/x\t200\t10"]) "/x" = []) ∧
    searchResults [] "/x" = [] ∧
    (∀ r ∈ searchResults (records ["h\t-\t0\tGET\t/x\t200\t10"]) "/x",
      strContainsCI (pyStrip "/x".data) r.request = true) ∧
    ((pyStrip "/x".data).isEmpty = false →
      searchResults (records ["h\t-\t0\tGET\t/x\t200\t10"]) "/x" =
        ((records ["h\t-\t0\tGET\t/x\t200\t10"]).filter
          (fun r => strContainsCI (pyStrip "/x".data) r.request)).take 50) ∧
    ((pyStrip "/x".data).isEmpty = false →
      ((records ["h\t-\t0\tGET\t/x\t200\t10"]).filter
        (fun r => strContainsCI (pyStrip "/x".data) r.request)).length ≤ 50 →
      searchResults (records ["h\t-\t0\tGET\t/x\t200\t10"]) "/x" =
        (records ["h\t-\t0\tGET\t/x\t200\t10"]).filter
          (fun r => strContainsCI (pyStrip "/x".data) r.request)) ∧
    searchCount (records ["h\t-\t0\tGET\t/x\t200\t10"]) "/x" =
      (searchResults (records ["h\t-\t0\tGET\t/x\t200\t10"]) "/x").length :=
  search_spec (records ["h\t-\t0\tGET\t/x\t200\t10"]) "/x" (by decide)

/-- C3, counterexample: the table built from `"h\t-\t0\tGET\t \t200\t10"` has
exactly one record, whose request `"GET  "` has no second whitespace-delimited
token; the endpoint ranking is empty — the record contributes nothing, its
full request string is NOT used as a fallback ranking key. -/
theorem endpoint_fallback_ce :
    (records ["h\t-\t0\tGET\t \t200\t10"]).map (fun r => r.request) = ["GET  ".data] ∧
    secondToken "GET  ".data = none ∧
    top_5_endpoints (records ["h\t-\t0\tGET\t \t200\t10"]) = [] := by
  refine ⟨by decide, by decide, by decide⟩

/-- C4, counterexample: during an `upload` call that replaces the one-record
table for `"old\t-\t0\tGET\t/old\t200\t1"` by the table for
`"h\t-\t0\tGET\t/x\t200\t10"`, the global `df` passes through the raw parsed
frame (line 54) — a state that is neither the complete previous table nor the
complete new one, so the replacement is not observably all-or-nothing. -/
theorem upload_atomicity_ce :
    DfState.transforming (parsedRows ["h\t-\t0\tGET\t/x\t200\t10"]) 0 ∈
      uploadTrace (DfState.table (records ["old\t-\t0\tGET\t/old\t200\t1"]))
        ["h\t-\t0\tGET\t/x\t200\t10"] ∧
    DfState.transforming (parsedRows ["h\t-\t0\tGET\t/x\t200\t10"]) 0 ≠
      DfState.table (records ["old\t-\t0\tGET\t/old\t200\t1"]) ∧
    DfState.transforming (parsedRows ["h\t-\t0\tGET\t/x\t200\t10"]) 0 ≠
      DfState.table (records ["h\t-\t0\tGET\t/x\t200\t10"]) := by
  refine ⟨?_, fun h => DfState.noConfusion h, fun h => DfState.noConfusion h⟩
  exact List.mem_cons_of_mem _ (List.mem_cons_self _ _)

/-- C4 (amended): an `upload` call starts from the previous global table and
ends with the complete new table, but publishes intermediate states in
between: the global is rebound to the raw parsed frame before the derived
columns are installed, so a reader (or a failure mid-transformation) can
observe a state that is neither the previous nor the new table. -/
theorem upload_trace_spec (prev : DfState) (lines : List String) :
    (uploadTrace prev lines).head? = some prev ∧
    (uploadTrace prev lines).getLast? = some (DfState.table (records lines)) ∧
    ∃ s ∈ uploadTrace prev lines, (∀ u, s ≠ DfState.table u) ∧ s ≠ DfState.noTable := by
  refine ⟨rfl, rfl, DfState.transforming (parsedRows lines) 0, ?_, ?_, ?_⟩
  · exact List.mem_cons_of_mem _ (List.mem_cons_self _ _)
  · intro u h; exact DfState.noConfusion h
  · intro h; exact DfState.noConfusion h

/-- C3 (amended): every entry of the endpoint ranking is keyed by the second
whitespace-delimited token of some record's request, counted over the records
that have such a token; a record whose request has no second token is
excluded from the ranking (its full request string is not used as a key). -/
theorem top5endpoints_keys (t : List LogRecord) :
    ∀ p ∈ top_5_endpoints t,
      (∃ r ∈ t, secondToken r.request = some p.1) ∧
      p.2 = countEq (endpointKeys t) p.1 := by
  intro p hp
  have h1 : p ∈ value_counts (endpointKeys t) := (List.take_sublist _ _).subset hp
  have h2 : p ∈ (dedupFO [] (endpointKeys t)).map
      (fun k => (k, countEq (endpointKeys t) k)) := (mem_sortCountDesc _ _).1 h1
  obtain ⟨k, hk, hpk⟩ := List.mem_map.1 h2
  have hkeys : k ∈ endpointKeys t := mem_dedupFO k _ _ hk
  obtain ⟨r, hr, hrk⟩ := List.mem_filterMap.1 hkeys
  subst hpk
  exact ⟨⟨r, hr, hrk⟩, rfl⟩

/-- C3 witness: the one-record table for `"h\t-\t0\tGET\t/x\t200\t10"` ranks
the entry `("/x", 1)`, whose key is the second token of that record's
request. -/
theorem top5endpoints_keys_witness :
    (∃ r ∈ records ["h\t-\t0\tGET\t/x\t200\t10"],
        secondToken r.request = some "/x".data) ∧
    (1 : Nat) = countEq (endpointKeys (records ["h\t-\t0\tGET\t/x\t200\t10"])) "/x".data :=
  top5endpoints_keys (records ["h\t-\t0\tGET\t/x\t200\t10"]) ("/x".data, 1) (by decide)

theorem sum_map_add {α : Type} (f g : α → Nat) (B : List α) :
    (B.map (fun b => f b + g b)).sum = (B.map f).sum + (B.map g).sum := by
  induction B with
  | nil => rfl
  | cons b bs ih =>
    simp only [List.map_cons, List.sum_cons, ih]
    omega

theorem sum_map_zero {α : Type} (B : List α) :
    (B.map (fun _ => (0 : Nat))).sum = 0 := by
  induction B with
  | nil => rfl
  | cons b bs ih => simp only [List.map_cons, List.sum_cons, ih]

theorem sum_ite_not_mem {α : Type} [DecidableEq α] (x : α) :
    ∀ (B : List α), x ∉ B → (B.map (fun b => if x = b then 1 else 0)).sum = 0 := by
  intro B
  induction B with
  | nil => intro _; rfl
  | cons b bs ih =>
    intro h
    simp only [List.map_cons, List.sum_cons]
    have hxb : x ≠ b := by
      intro e
      rw [e] at h
      exact h (List.mem_cons_self b bs)
    rw [if_neg hxb, ih (fun hm => h (List.mem_cons_of_mem _ hm))]

theorem sum_ite_mem {α : Type} [DecidableEq α] (x : α) :
    ∀ (B : List α), B.Nodup → x ∈ B →
      (B.map (fun b => if x = b then 1 else 0)).sum = 1 := by
  intro B
  induction B with
  | nil => intro _ h; simp at h
  | cons b bs ih =>
    intro hnd hx
    simp only [List.map_cons, List.sum_cons]
    rcases List.mem_cons.1 hx with rfl | hx'
    · rw [if_pos rfl, sum_ite_not_mem x bs (List.nodup_cons.1 hnd).1]
    · have hxb : x ≠ b := by
        intro e
        exact (List.nodup_cons.1 hnd).1 (e ▸ hx')
      rw [if_neg hxb, ih (List.nodup_cons.1 hnd).2 hx']

theorem countEq_cons {α : Type} [DecidableEq α] (x b : α) (xs : List α) :
    countEq (x :: xs) b = countEq xs b + (if x = b then 1 else 0) := by
  simp [countEq, List.countP_cons]

theorem sum_countEq_of_mem {α : Type} [DecidableEq α] (B : List α) (hB : B.Nodup) :
    ∀ (l : List α), (∀ x ∈ l, x ∈ B) →
      (B.map (fun b => countEq l b)).sum = l.length := by
  intro l
  induction l with
  | nil =>
    intro _
    have e : (B.map (fun b => countEq ([] : List α) b)) = B.map (fun _ => 0) := by
      simp [countEq]
    rw [e, sum_map_zero]
    rfl
  | cons x xs ih =>
    intro hmem
    have hx : x ∈ B := hmem x (List.mem_cons_self _ _)
    have e : (B.map (fun b => countEq (x :: xs) b)) =
        B.map (fun b => countEq xs b + (if x = b then 1 else 0)) := by
      simp only [countEq_cons]
    rw [e, sum_map_add, ih (fun y hy => hmem y (List.mem_cons_of_mem _ hy)),
        sum_ite_mem x B hB hx, List.length_cons]

theorem foldl_min_le (hs : List Int) :
    ∀ (a : Int), (∀ x ∈ hs, hs.foldl min a ≤ x) ∧ hs.foldl min a ≤ a := by
  induction hs with
  | nil => intro a; exact ⟨by simp, le_refl a⟩
  | cons y ys ih =>
    intro a
    simp only [List.foldl_cons]
    obtain ⟨h1, h2⟩ := ih (min a y)
    refine ⟨?_, le_trans h2 (min_le_left a y)⟩
    intro x hx
    rcases List.mem_cons.1 hx with rfl | hx'
    · exact le_trans h2 (min_le_right a x)
    · exact h1 x hx'

theorem le_foldl_max (hs : List Int) :
    ∀ (a : Int), (∀ x ∈ hs, x ≤ hs.foldl max a) ∧ a ≤ hs.foldl max a := by
  induction hs with
  | nil => intro a; exact ⟨by simp, le_refl a⟩
  | cons y ys ih =>
    intro a
    simp only [List.foldl_cons]
    obtain ⟨h1, h2⟩ := ih (max a y)
    refine ⟨?_, le_trans (le_max_left a y) h2⟩
    intro x hx
    rcases List.mem_cons.1 hx with rfl | hx'
    · exact le_trans (le_max_right a x) h2
    · exact h1 x hx'

theorem bucketize_sum (l : List Int) :
    ((bucketize l).map (fun p => p.2)).sum = l.length := by
  cases l with
  | nil => rfl
  | cons h hs =>
    have hB : ((List.range (hs.foldl max h - hs.foldl min h + 1).toNat).map
        (fun (i : Nat) => hs.foldl min h + (i : Int))).Nodup := by
      refine List.Nodup.map ?_ (List.nodup_range _)
      intro a b hab
      dsimp only at hab
      omega
    have hmem : ∀ x ∈ h :: hs,
        x ∈ (List.range (hs.foldl max h - hs.foldl min h + 1).toNat).map
          (fun (i : Nat) => hs.foldl min h + (i : Int)) := by
      intro x hx
      have h1 : hs.foldl min h ≤ x := by
        rcases List.mem_cons.1 hx with rfl | hx'
        · exact (foldl_min_le hs x).2
        · exact (foldl_min_le hs h).1 x hx'
      have h2 : x ≤ hs.foldl max h := by
        rcases List.mem_cons.1 hx with rfl | hx'
        · exact (le_foldl_max hs x).2
        · exact (le_foldl_max hs h).1 x hx'
      have hlt : (x - hs.foldl min h).toNat < (hs.foldl max h - hs.foldl min h + 1).toNat := by
        omega
      have heq : hs.foldl min h + ((x - hs.foldl min h).toNat : Int) = x := by
        omega
      exact List.mem_map.2 ⟨(x - hs.foldl min h).toNat, List.mem_range.2 hlt, heq⟩
    have hsum := sum_countEq_of_mem _ hB (h :: hs) hmem
    rw [List.map_map] at hsum
    show (((List.range (hs.foldl max h - hs.foldl min h + 1).toNat).map
        (fun (i : Nat) => (hs.foldl min h + (i : Int),
          countEq (h :: hs) (hs.foldl min h + (i : Int))))).map
        (fun p => p.2)).sum = (h :: hs).length
    rw [List.map_map]
    exact hsum

/-- C6 (confirmed): the `requests_over_time` bucket counts sum to the number
of records with non-null `dt` (records with null `dt` are excluded from this
aggregate only, while still counting toward `total = t.length`), and an empty
or all-null-time table yields an empty sequence rather than an error. -/
theorem requests_over_time_sum (t : List LogRecord) :
    ((requests_over_time t).map (fun p => p.2)).sum =
      (t.filterMap (fun r => r.dt)).length ∧
    (t.filterMap (fun r => r.dt) = [] → requests_over_time t = []) ∧
    requests_over_time [] = [] := by
  refine ⟨?_, ?_, rfl⟩
  · calc ((requests_over_time t).map (fun p => p.2)).sum
        = (validHours t).length := bucketize_sum _
      _ = (t.filterMap (fun r => r.dt)).length := by simp [validHours]
  · intro h
    show bucketize (validHours t) = []
    rw [validHours, h]
    rfl

theorem roundHalfEven_bounds (x : ℚ) : |(roundHalfEven x : ℚ) - x| ≤ 1 / 2 := by
  have h0 : (⌊x⌋ : ℚ) ≤ x := Int.floor_le x
  have h1 : x < ⌊x⌋ + 1 := Int.lt_floor_add_one x
  unfold roundHalfEven
  by_cases hc1 : x - ⌊x⌋ < 1 / 2
  · rw [if_pos hc1, abs_le]
    constructor <;> linarith
  · rw [if_neg hc1]
    by_cases hc2 : 1 / 2 < x - ⌊x⌋
    · rw [if_pos hc2, abs_le]
      constructor <;> push_cast <;> linarith
    · rw [if_neg hc2]
      by_cases he : Even ⌊x⌋
      · rw [if_pos he, abs_le]
        constructor <;> linarith
      · rw [if_neg he, abs_le]
        constructor <;> push_cast <;> linarith

theorem roundHalfEven_nonneg (x : ℚ) (hx : 0 ≤ x) : 0 ≤ roundHalfEven x := by
  have h0 : 0 ≤ ⌊x⌋ := Int.floor_nonneg.2 hx
  unfold roundHalfEven
  by_cases hc1 : x - ⌊x⌋ < 1 / 2
  · rw [if_pos hc1]; exact h0
  · rw [if_neg hc1]
    by_cases hc2 : 1 / 2 < x - ⌊x⌋
    · rw [if_pos hc2]; omega
    · rw [if_neg hc2]
      by_cases he : Even ⌊x⌋
      · rw [if_pos he]; exact h0
      · rw [if_neg he]; omega

theorem roundHalfEven_le (x : ℚ) (M : ℤ) (hx : x ≤ M) : roundHalfEven x ≤ M := by
  have hfl : ⌊x⌋ ≤ M := by
    have := Int.floor_le_floor hx
    rwa [Int.floor_intCast] at this
  unfold roundHalfEven
  by_cases hc1 : x - ⌊x⌋ < 1 / 2
  · rw [if_pos hc1]; exact hfl
  · have hlt : ⌊x⌋ + 1 ≤ M := by
      have h2 : (⌊x⌋ : ℚ) + 1 / 2 ≤ x := by linarith [not_lt.1 hc1]
      have h3 : (⌊x⌋ : ℚ) < (M : ℚ) := by linarith
      have h4 : ⌊x⌋ < M := by exact_mod_cast h3
      omega
    rw [if_neg hc1]
    by_cases hc2 : 1 / 2 < x - ⌊x⌋
    · rw [if_pos hc2]; exact hlt
    · rw [if_neg hc2]
      by_cases he : Even ⌊x⌋
      · rw [if_pos he]; exact hfl
      · rw [if_neg he]; exact hlt

/-- C7 (confirmed): `error_rate_pct` is `100 · error_count / total` rounded to
2 decimal places (ties to even, within half of the last kept digit of the
exact ratio), always lies in `[0, 100]`, is an exact multiple of `1/100`, and
is `0` on an empty table. -/
theorem error_rate_spec (t : List LogRecord) :
    0 ≤ error_rate_pct t ∧
    error_rate_pct t ≤ 100 ∧
    (∃ n : ℤ, error_rate_pct t = (n : ℚ) / 100) ∧
    (t.length = 0 → error_rate_pct t = 0) ∧
    (t.length ≠ 0 →
      |error_rate_pct t - 100 * (error_count t : ℚ) / (t.length : ℚ)| ≤ 1 / 200) := by
  by_cases h : t.length = 0
  · rw [error_rate_pct, if_pos h]
    exact ⟨le_refl 0, by norm_num, ⟨0, by norm_num⟩, fun _ => rfl, fun hn => absurd h hn⟩
  · have hpos : 0 < (t.length : ℚ) := by
      exact_mod_cast Nat.pos_of_ne_zero h
    have hX0 : 0 ≤ 100 * (error_count t : ℚ) / (t.length : ℚ) := by positivity
    have hXle : 100 * (error_count t : ℚ) / (t.length : ℚ) ≤ 100 := by
      rw [div_le_iff hpos]
      have hc : (error_count t : ℚ) ≤ (t.length : ℚ) := by
        exact_mod_cast List.countP_le_length _
      linarith
    have he : error_rate_pct t =
        (roundHalfEven (100 * (error_count t : ℚ) / (t.length : ℚ) * 100) : ℚ) / 100 := by
      rw [error_rate_pct, if_neg h]; rfl
    have hnn : 0 ≤ roundHalfEven (100 * (error_count t : ℚ) / (t.length : ℚ) * 100) :=
      roundHalfEven_nonneg _ (by positivity)
    have hle : roundHalfEven (100 * (error_count t : ℚ) / (t.length : ℚ) * 100) ≤ 10000 := by
      apply roundHalfEven_le
      push_cast
      nlinarith
    have hb := roundHalfEven_bounds (100 * (error_count t : ℚ) / (t.length : ℚ) * 100)
    refine ⟨?_, ?_, ⟨roundHalfEven (100 * (error_count t : ℚ) / (t.length : ℚ) * 100), he⟩,
      fun h0 => absurd h0 h, fun _ => ?_⟩
    · rw [he]
      apply div_nonneg _ (by norm_num)
      exact_mod_cast hnn
    · rw [he, div_le_iff (by norm_num : (0 : ℚ) < 100)]
      have h10 : (roundHalfEven (100 * (error_count t : ℚ) / (t.length : ℚ) * 100) : ℚ) ≤ 10000 := by
        exact_mod_cast hle
      linarith
    · rw [he]
      have e : (roundHalfEven (100 * (error_count t : ℚ) / (t.length : ℚ) * 100) : ℚ) / 100 -
          100 * (error_count t : ℚ) / (t.length : ℚ) =
          ((roundHalfEven (100 * (error_count t : ℚ) / (t.length : ℚ) * 100) : ℚ) -
            100 * (error_count t : ℚ) / (t.length : ℚ) * 100) / 100 := by
        ring
      rw [e, abs_div, abs_of_pos (by norm_num : (0 : ℚ) < 100)]
      calc |(roundHalfEven (100 * (error_count t : ℚ) / (t.length : ℚ) * 100) : ℚ) -
            100 * (error_count t : ℚ) / (t.length : ℚ) * 100| / 100
          ≤ (1 / 2) / 100 := (div_le_div_right (by norm_num : (0 : ℚ) < 100)).2 hb
        _ = 1 / 200 := by norm_num

/-- C9, counterexample: the line `"\t-\t804571304\tGET\t/x\t200\t10"` has an
empty host field, which `pd.read_csv` stores as `NaN` and nothing refills:
the resulting table's single record has a null host, so not every record has
non-null host. -/
theorem host_nonnull_ce :
    (records ["\t-\t804571304\tGET\t/x\t200\t10"]).map (fun r => r.host) = [none] ∧
    (records ["\t-\t804571304\tGET\t/x\t200\t10"]).length = 1 := by
  refine ⟨by decide, by decide⟩

/-- C9 (amended): every record in the Log Table has a (non-null) string
request, an integer status and a numeric bytes value, with status defaulting
to the integer 0 and bytes to the number 0 whenever the raw text fails the
numeric parse; the host field equals the raw host cell, hence is null exactly
when that cell was absent or an NA sentinel (such as the empty field). -/
theorem record_field_invariants (lines : List String) :
    ∀ r ∈ records lines, ∃ row ∈ parsedRows lines,
      r = deriveRecordTz 0 row ∧
      r.host = row.host ∧
      (row.status.bind pyFloat = none → r.status = 0) ∧
      (row.bytes.bind pyFloat = none → r.bytes = ⟨0, 0⟩) := by
  intro r hr
  obtain ⟨row, hrow, hder⟩ := List.mem_map.1 hr
  refine ⟨row, hrow, hder.symm, by rw [← hder]; rfl, ?_, ?_⟩
  · intro hs
    rw [← hder]
    show (deriveRecordTz 0 row).status = 0
    simp [deriveRecordTz, hs]
  · intro hb
    rw [← hder]
    show (deriveRecordTz 0 row).bytes = ⟨0, 0⟩
    simp [deriveRecordTz, hb]

/-- C9 witness: a row with unparsable status and bytes text gets status `0`
and bytes `0`, and keeps its host. -/
theorem record_field_invariants_witness :
    ∃ row ∈ parsedRows ["h\t-\tbad\tGET\t/x\tabc\txyz"],
      ({ host := some "h".data, time := none, request := "GET /x".data,
         status := 0, bytes := ⟨0, 0⟩, dt := none } : LogRecord) = deriveRecordTz 0 row ∧
      ({ host := some "h".data, time := none, request := "GET /x".data,
         status := 0, bytes := ⟨0, 0⟩, dt := none } : LogRecord).host = row.host ∧
      (row.status.bind pyFloat = none →
        ({ host := some "h".data, time := none, request := "GET /x".data,
           status := 0, bytes := ⟨0, 0⟩, dt := none } : LogRecord).status = 0) ∧
      (row.bytes.bind pyFloat = none →
        ({ host := some "h".data, time := none, request := "GET /x".data,
           status := 0, bytes := ⟨0, 0⟩, dt := none } : LogRecord).bytes = ⟨0, 0⟩) :=
  record_field_invariants ["h\t-\tbad\tGET\t/x\tabc\txyz"] _ (by decide)

/-- C10 (confirmed): timestamp derivation is deterministic and timezone-
independent — the table never depends on the host timezone parameter; every
record's `dt` is the raw epoch text parsed as seconds (UTC), its display time
the `'%d/%b/%Y:%H:%M:%S'` rendering of that UTC instant; on the spec's
scenario line the epoch `804571304` renders as `01/Jul/1995:04:01:44`. -/
theorem timestamp_tz_independence (lines : List String) (tz1 tz2 : Int) :
    recordsTz tz1 lines = recordsTz tz2 lines ∧
    (∀ r ∈ records lines, ∃ row ∈ parsedRows lines,
      r.dt = row.time_epoch.bind pyFloat ∧
      r.time = r.dt.map (fun d => strftimeDBY d.floorInt)) ∧
    (records ["10.0.0.1\t-\t804571304\tGET\t/shuttle/missions/sts-1\t200\t1024"]).map
        (fun r => (r.dt, r.time)) =
      [(some ⟨804571304, 0⟩, some "01/Jul/1995:04:01:44".data)] := by
  refine ⟨rfl, ?_, by decide⟩
  intro r hr
  obtain ⟨row, hrow, hder⟩ := List.mem_map.1 hr
  exact ⟨row, hrow, by rw [← hder]; rfl, by rw [← hder]; rfl⟩

end LogIntel
